import Mathlib

/-!
Verification development for the BioSIM Web API prototype.

The definitions below are a shallow embedding of the Python sources:
`biosim/bssettings.py` (temporal contexts and their year bounds),
`biosim/bsrequest.py` (requests, the reference cache, result merging and
text parsing), and `biosim/bswrappers.py` (pooled dispatch and pool
rotation).  Python `OrderedDict`/`dict` values are embedded as
insertion-ordered association lists, machine integers as `Int`/`Nat`, and
fallible code as `Except`/`Option`.
-/

namespace BioSim

/-- `AbstractRequest.updateErrMsg` from `bsrequest.py`: prepend `"Error: "`
to the first message, separate later ones with `", "`. -/
def updateErrMsg (errMsg newMessage : String) : String :=
  if errMsg.length = 0 then errMsg ++ ("Error: " ++ newMessage)
  else errMsg ++ (", " ++ newMessage)

/-- `OrderedDict.__setitem__` (also plain `dict.__setitem__`): an existing
key is updated in place keeping its position, a new key is appended at the
most-recent end. -/
def odSetItem {α β : Type} [DecidableEq α] (d : List (α × β)) (k : α) (v : β) :
    List (α × β) :=
  if k ∈ d.map Prod.fst then
    d.map (fun p => if p.1 = k then (k, v) else p)
  else
    d ++ [(k, v)]

/-! ### `bssettings.py`: year intervals and contexts -/

/-- The year interval carried by a `Normals` or `Daily` enum constant:
`getInitialDateYr` returns `value[1]`, `getFinalDateYr` returns `value[2]`. -/
structure Interval where
  initYr : Int
  finalYr : Int
  deriving DecidableEq, Repr

/-- `Context.getBounds` from `bssettings.py` (lines 428-445): four-way
interval comparison of the requested `[initYr, finalYr]` against the
enum's valid interval. -/
def getBounds (enumVar : Interval) (initYr finalYr : Int) : Option (Int × Int) :=
  if initYr > enumVar.finalYr then
    none
  else if initYr ≥ enumVar.initYr then
    if finalYr ≥ enumVar.finalYr then some (initYr, enumVar.finalYr)
    else if finalYr ≥ enumVar.initYr then some (initYr, finalYr)
    else none
  else
    if finalYr ≥ enumVar.finalYr then some (enumVar.initYr, enumVar.finalYr)
    else if finalYr ≥ enumVar.initYr then some (enumVar.initYr, finalYr)
    else none

/-- A `Context` from `bssettings.py`: a normals interval and an optional
daily interval (`self.daily` may be `None`).  The shore/DEM/gribs fields
play no role in span resolution and are omitted. -/
structure Context where
  normals : Interval
  daily : Option Interval
  deriving DecidableEq, Repr

/-- The `selectedEnum` local of `Context.getMatchInThisInterval`: the daily
interval when `isFromObservation and self.daily != None`, else the normals
interval. -/
def Context.selectedEnum (c : Context) (isFromObservation : Bool) : Interval :=
  match isFromObservation, c.daily with
  | true, some d => d
  | _, _ => c.normals

/-- `Context.getMatchInThisInterval` from `bssettings.py`. -/
def Context.getMatchInThisInterval (c : Context) (initDateYr finalDateYr : Int)
    (isFromObservation : Bool) : Option (Int × Int) :=
  getBounds (c.selectedEnum isFromObservation) initDateYr finalDateYr

/-! ### `bsrequest.py`: `WeatherGeneratorRequest` span resolution -/

/-- The fields of a `WeatherGeneratorRequest` that drive span resolution:
`self.dict["from"]`, `self.dict["to"]` and `self.dict["source"]`. -/
structure WGRequest where
  fromYr : Int
  toYr : Int
  source : String
  deriving Repr

/-- `self.contextDict`: an `OrderedDict` mapping each matched context to
its `[lo, hi]` bounds, in insertion order. -/
abbrev ContextDict := List (Context × (Int × Int))

/-- The `initDateYr` computation at the top of `doesThisContextMatch`: if
some contexts already matched, the initial date is the last matched upper
bound plus one, else `self.dict["from"]`. -/
def nextInitDateYr (req : WGRequest) (contextDict : ContextDict) : Int :=
  if contextDict.length > 0 then
    match contextDict.getLast? with
    | some lastEntry => lastEntry.2.2 + 1
    | none => req.fromYr
  else req.fromYr

/-- `WeatherGeneratorRequest.doesThisContextMatch` from `bsrequest.py`
(lines 455-471).  Returns the boolean result together with the updated
`contextDict` (the Python method mutates `self.contextDict`). -/
def doesThisContextMatch (req : WGRequest) (contextDict : ContextDict)
    (context : Context) : Bool × ContextDict :=
  let initDateYr : Int := nextInitDateYr req contextDict
  let finalDateYr := req.toYr
  if initDateYr > finalDateYr then (false, contextDict)
  else
    let isFromObservation := req.source == "FromObservation"
    match context.getMatchInThisInterval initDateYr finalDateYr isFromObservation with
    | some bounds => (true, odSetItem contextDict context bounds)
    | none => (false, contextDict)

/-- The span-resolution loop of `Server.processRequest` (`bsserver.py`
line 212): `doesThisContextMatch` is called once per context, in catalog
order, accumulating `self.contextDict`. -/
def resolveSpans (req : WGRequest) (contexts : List Context) : ContextDict :=
  contexts.foldl (fun st c => (doesThisContextMatch req st c).2) []

/-! ### Lemmas about `getBounds` -/

theorem getBounds_some_spec {e : Interval} {lo hi a b : Int}
    (hwf : e.initYr ≤ e.finalYr) (hlohi : lo ≤ hi)
    (h : getBounds e lo hi = some (a, b)) :
    a = max lo e.initYr ∧ b = min hi e.finalYr ∧ a ≤ b ∧
      (b = hi ∨ b = e.finalYr) := by
  unfold getBounds at h
  split_ifs at h <;> simp_all <;> omega

theorem getBounds_none_of_gt {e : Interval} {lo hi : Int}
    (h : lo > e.finalYr) : getBounds e lo hi = none := by
  simp [getBounds, h]

/-! ### Invariant of the resolved spans -/

/-- The value the next call of `doesThisContextMatch` will use as
`initDateYr`, starting from `lo`. -/
def endCursor (lo : Int) : ContextDict → Int
  | [] => lo
  | entry :: rest => endCursor (entry.2.2 + 1) rest

/-- Well-formedness of a list of resolved spans starting at cursor `lo`:
each span starts at or after the cursor, is nonempty, stays inside
`req.toYr` and inside its context's selected interval, and ends either at
`req.toYr` or at that interval's final year; the cursor then moves past
it. -/
def SpansOK (req : WGRequest) : Int → ContextDict → Prop
  | _, [] => True
  | lo, (c, a, b) :: rest =>
      lo ≤ a ∧ a ≤ b ∧ b ≤ req.toYr ∧
      (c.selectedEnum (req.source == "FromObservation")).initYr ≤ a ∧
      b ≤ (c.selectedEnum (req.source == "FromObservation")).finalYr ∧
      (b = req.toYr ∨ b = (c.selectedEnum (req.source == "FromObservation")).finalYr) ∧
      SpansOK req (b + 1) rest

theorem endCursor_append (lo : Int) (st : ContextDict) (s : Context × Int × Int) :
    endCursor lo (st ++ [s]) = s.2.2 + 1 := by
  induction st generalizing lo with
  | nil => rfl
  | cons x xs ih => simpa [endCursor] using ih (x.2.2 + 1)

theorem endCursor_eq_getLast (st : ContextDict) (lo : Int) :
    endCursor lo st =
      (match st.getLast? with
       | some lastEntry => lastEntry.2.2 + 1
       | none => lo) := by
  induction st generalizing lo with
  | nil => rfl
  | cons x xs ih =>
    cases xs with
    | nil => rfl
    | cons y ys => simpa [endCursor, List.getLast?] using ih (x.2.2 + 1)

theorem SpansOK_le_endCursor {req : WGRequest} {lo : Int} {st : ContextDict}
    (h : SpansOK req lo st) : lo ≤ endCursor lo st := by
  induction st generalizing lo with
  | nil => exact le_refl _
  | cons x xs ih =>
    obtain ⟨c, a, b⟩ := x
    obtain ⟨h1, h2, _, _, _, _, h7⟩ := h
    have hrec := ih h7
    simp only [endCursor] at hrec ⊢
    omega

theorem SpansOK_mem {req : WGRequest} {lo : Int} {st : ContextDict}
    (h : SpansOK req lo st) {c : Context} {a b : Int}
    (hs : (c, a, b) ∈ st) :
    lo ≤ a ∧ a ≤ b ∧ b ≤ req.toYr ∧
    (c.selectedEnum (req.source == "FromObservation")).initYr ≤ a ∧
    b ≤ (c.selectedEnum (req.source == "FromObservation")).finalYr ∧
    (b = req.toYr ∨
      b = (c.selectedEnum (req.source == "FromObservation")).finalYr) ∧
    b + 1 ≤ endCursor lo st := by
  induction st generalizing lo with
  | nil => cases hs
  | cons x xs ih =>
    obtain ⟨c0, a0, b0⟩ := x
    obtain ⟨h1, h2, h3, h4, h5, h6, h7⟩ := h
    simp only [endCursor]
    rcases List.mem_cons.mp hs with heq | htail
    · cases heq
      refine ⟨h1, h2, h3, h4, h5, h6, ?_⟩
      exact SpansOK_le_endCursor h7
    · obtain ⟨g1, g2, g3, g4, g5, g6, g7⟩ := ih h7 htail
      exact ⟨by omega, g2, g3, g4, g5, g6, g7⟩

theorem SpansOK_pairwise {req : WGRequest} {lo : Int} {st : ContextDict}
    (h : SpansOK req lo st) : st.Pairwise (fun s t => s.2.2 < t.2.1) := by
  induction st generalizing lo with
  | nil => exact List.Pairwise.nil
  | cons x xs ih =>
    obtain ⟨c, a, b⟩ := x
    obtain ⟨h1, h2, h3, h4, h5, h6, h7⟩ := h
    refine List.Pairwise.cons (fun t ht => ?_) (ih h7)
    obtain ⟨ct, at2, bt2⟩ := t
    have := (SpansOK_mem h7 ht).1
    simpa using by omega

theorem SpansOK_append {req : WGRequest} {lo : Int} {st : ContextDict}
    (h : SpansOK req lo st) {c : Context} {a b : Int}
    (ha : endCursor lo st ≤ a) (hab : a ≤ b) (hb : b ≤ req.toYr)
    (hia : (c.selectedEnum (req.source == "FromObservation")).initYr ≤ a)
    (hbf : b ≤ (c.selectedEnum (req.source == "FromObservation")).finalYr)
    (hend : b = req.toYr ∨
      b = (c.selectedEnum (req.source == "FromObservation")).finalYr) :
    SpansOK req lo (st ++ [(c, a, b)]) := by
  induction st generalizing lo with
  | nil => exact ⟨ha, hab, hb, hia, hbf, hend, trivial⟩
  | cons x xs ih =>
    obtain ⟨c0, a0, b0⟩ := x
    obtain ⟨h1, h2, h3, h4, h5, h6, h7⟩ := h
    exact ⟨h1, h2, h3, h4, h5, h6, ih h7 ha⟩

/-- If a context already appears among the resolved spans, the cursor has
moved strictly past that context's selected interval or past `req.toYr`. -/
theorem SpansOK_key_exhausted {req : WGRequest} {lo : Int} {st : ContextDict}
    (h : SpansOK req lo st) {c : Context} {a b : Int} (hc : (c, a, b) ∈ st) :
    (c.selectedEnum (req.source == "FromObservation")).finalYr < endCursor lo st ∨
      req.toYr < endCursor lo st := by
  obtain ⟨g1, g2, g3, g4, g5, g6, g7⟩ := SpansOK_mem h hc
  rcases g6 with hb | hb
  · right; omega
  · left; omega

/-- The `initDateYr` computed by `doesThisContextMatch` equals the cursor. -/
theorem nextInitDateYr_eq_endCursor (req : WGRequest) (st : ContextDict) :
    nextInitDateYr req st = endCursor req.fromYr st := by
  rw [endCursor_eq_getLast st req.fromYr]
  cases st with
  | nil => rfl
  | cons x xs => simp [nextInitDateYr]

theorem doesThisContextMatch_preserves {req : WGRequest} {st : ContextDict}
    {c : Context}
    (hwf : (c.selectedEnum (req.source == "FromObservation")).initYr ≤
      (c.selectedEnum (req.source == "FromObservation")).finalYr)
    (h : SpansOK req req.fromYr st) :
    SpansOK req req.fromYr (doesThisContextMatch req st c).2 := by
  simp only [doesThisContextMatch, nextInitDateYr_eq_endCursor req st]
  set lo := endCursor req.fromYr st with hlo
  by_cases hgt : lo > req.toYr
  · simp [hgt, h]
  · simp only [hgt, if_false]
    rcases hm : c.getMatchInThisInterval lo req.toYr (req.source == "FromObservation")
      with _ | ⟨a, b⟩
    · simpa using h
    · simp only []
      have hspec := getBounds_some_spec hwf (by omega) hm
      obtain ⟨hA, hB, hAB, hBE⟩ := hspec
      have hkey : c ∉ st.map Prod.fst := by
        intro hmem
        obtain ⟨s, hv, hc2⟩ := List.mem_map.mp hmem
        obtain ⟨c2, a2, b2⟩ := s
        cases hc2
        rcases SpansOK_key_exhausted h hv with hex | hex
        · have hnone : getBounds (c2.selectedEnum (req.source == "FromObservation"))
              lo req.toYr = none := getBounds_none_of_gt (by omega)
          rw [Context.getMatchInThisInterval, hnone] at hm
          exact Option.noConfusion hm
        · omega
      have hset : odSetItem st c (a, b) = st ++ [(c, (a, b))] := by
        simp [odSetItem, hkey]
      rw [hset]
      exact SpansOK_append h (by omega) hAB (by omega) (by omega) (by omega)
        (by omega)

theorem resolveSpans_ok (req : WGRequest) (ctxs : List Context)
    (hwf : ∀ c ∈ ctxs, (c.selectedEnum (req.source == "FromObservation")).initYr ≤
      (c.selectedEnum (req.source == "FromObservation")).finalYr) :
    SpansOK req req.fromYr (resolveSpans req ctxs) := by
  suffices h : ∀ st, SpansOK req req.fromYr st →
      SpansOK req req.fromYr
        (ctxs.foldl (fun st c => (doesThisContextMatch req st c).2) st) by
    exact h [] trivial
  induction ctxs with
  | nil => intro st hst; exact hst
  | cons c cs ih =>
    intro st hst
    exact ih (fun c2 hc2 => hwf c2 (List.mem_cons_of_mem c hc2))
      _ (doesThisContextMatch_preserves (hwf c (List.mem_cons_self c cs)) hst)

/-! ### Concrete epochs of the worked example (observed path) -/

/-- Observed-path epoch with daily interval 1941-1970. -/
def epochObs1941_1970 : Context := ⟨⟨1941, 1970⟩, some ⟨1941, 1970⟩⟩

/-- Observed-path epoch with daily interval 1951-1980. -/
def epochObs1951_1980 : Context := ⟨⟨1951, 1980⟩, some ⟨1951, 1980⟩⟩

/-- Observed-path epoch with daily interval 1981-2010. -/
def epochObs1981_2010 : Context := ⟨⟨1981, 2010⟩, some ⟨1981, 2010⟩⟩

/-- The worked example's catalog, consumed in order. -/
def observedEpochs : List Context :=
  [epochObs1941_1970, epochObs1951_1980, epochObs1981_2010]

/-! ### Claim C1 -/

/-- C1 (amended): for `from ≤ to` and well-formed contexts, the spans
produced by repeated `doesThisContextMatch` calls in catalog order are
pairwise disjoint, chronologically ordered, and each is contained in its
context's selected valid interval and in `[from, to]`.  (The further
clause of the original claim — that the concatenation reproduces
`[from, to]` minus the years not covered by any context — is refuted by
`resolveSpans_coverage_counterexample`.) -/
theorem resolveSpans_disjoint_ordered_bounded (req : WGRequest)
    (ctxs : List Context) (hft : req.fromYr ≤ req.toYr)
    (hwf : ∀ c ∈ ctxs,
      (c.selectedEnum (req.source == "FromObservation")).initYr ≤
        (c.selectedEnum (req.source == "FromObservation")).finalYr) :
    (resolveSpans req ctxs).Pairwise (fun s t => s.2.2 < t.2.1) ∧
    ∀ c a b, (c, a, b) ∈ resolveSpans req ctxs →
      req.fromYr ≤ a ∧ a ≤ b ∧ b ≤ req.toYr ∧
      (c.selectedEnum (req.source == "FromObservation")).initYr ≤ a ∧
      b ≤ (c.selectedEnum (req.source == "FromObservation")).finalYr := by
  have hok := resolveSpans_ok req ctxs hwf
  refine ⟨SpansOK_pairwise hok, fun c a b hmem => ?_⟩
  obtain ⟨g1, g2, g3, g4, g5, g6, g7⟩ := SpansOK_mem hok hmem
  exact ⟨g1, g2, g3, g4, g5⟩

/-- Witness for `resolveSpans_disjoint_ordered_bounded` at the worked
example's catalog with `from = 1965`, `to = 1995`. -/
theorem resolveSpans_disjoint_ordered_bounded_witness :
    (resolveSpans ⟨1965, 1995, "FromObservation"⟩ observedEpochs).Pairwise
      (fun s t => s.2.2 < t.2.1) :=
  (resolveSpans_disjoint_ordered_bounded ⟨1965, 1995, "FromObservation"⟩
    observedEpochs (by decide) (by decide)).1

/-- C1 counterexample: with contexts `[2000,2010]` then `[1990,2010]` (in
that catalog order) and request `from = 1990`, `to = 2010`, resolution
produces the single span `[2000,2010]`.  The year 1995 lies in
`[from, to]` and is covered by the second context's valid interval, yet it
belongs to no produced span: the concatenation does not reproduce
`[from, to]` minus the years uncovered by every context. -/
theorem resolveSpans_coverage_counterexample :
    resolveSpans ⟨1990, 2010, "FromNormals"⟩
        [⟨⟨2000, 2010⟩, none⟩, ⟨⟨1990, 2010⟩, none⟩] =
      [(⟨⟨2000, 2010⟩, none⟩, 2000, 2010)] ∧
    ((⟨⟨1990, 2010⟩, none⟩ : Context).selectedEnum false).initYr ≤ 1995 ∧
    (1995 : Int) ≤ ((⟨⟨1990, 2010⟩, none⟩ : Context).selectedEnum false).finalYr ∧
    (1990 : Int) ≤ 1995 ∧ (1995 : Int) ≤ 2010 ∧
    ∀ s ∈ resolveSpans ⟨1990, 2010, "FromNormals"⟩
        [⟨⟨2000, 2010⟩, none⟩, ⟨⟨1990, 2010⟩, none⟩],
      ¬(s.2.1 ≤ 1995 ∧ (1995 : Int) ≤ s.2.2) := by
  decide

/-! ### Claim C9 -/

/-- C9 counterexample: on the worked example's catalog, the request
`from = 1965`, `to = 1995` resolves to three spans, not two as claimed. -/
theorem resolveSpans_two_span_refutation :
    (resolveSpans ⟨1965, 1995, "FromObservation"⟩ observedEpochs).length ≠ 2 ∧
    (resolveSpans ⟨1965, 1995, "FromObservation"⟩ observedEpochs).length = 3 := by
  decide

/-- C9 (amended): on the catalog `[1941,1970], [1951,1980], [1981,2010]`
consumed in order, request `from = 1995`, `to = 2005` resolves to the
single span `[1995,2005]` on the 1981-2010 epoch, and request
`from = 1965`, `to = 1995` resolves to exactly three spans `[1965,1970]`,
`[1971,1980]`, `[1981,1995]` whose bounds, concatenated in order, are
exactly the years 1965..1995. -/
theorem resolveSpans_worked_example :
    resolveSpans ⟨1995, 2005, "FromObservation"⟩ observedEpochs =
      [(epochObs1981_2010, 1995, 2005)] ∧
    resolveSpans ⟨1965, 1995, "FromObservation"⟩ observedEpochs =
      [(epochObs1941_1970, 1965, 1970), (epochObs1951_1980, 1971, 1980),
        (epochObs1981_2010, 1981, 1995)] := by
  decide

/-! ### Claim C5 -/

/-- C5 counterexample: `doesThisContextMatch` is not side-effect free.
With request `from = 1990`, `to = 2010`, source `FromNormals` and a
context whose normals interval is `[1990,2010]`, the first call mutates
the request's `contextDict` from empty to nonempty, and a second call with
the same arguments returns `False` where the first returned `True`. -/
theorem doesThisContextMatch_not_pure :
    (doesThisContextMatch ⟨1990, 2010, "FromNormals"⟩ []
        ⟨⟨1990, 2010⟩, none⟩).1 = true ∧
    (doesThisContextMatch ⟨1990, 2010, "FromNormals"⟩ []
        ⟨⟨1990, 2010⟩, none⟩).2 ≠ [] ∧
    (doesThisContextMatch ⟨1990, 2010, "FromNormals"⟩
        (doesThisContextMatch ⟨1990, 2010, "FromNormals"⟩ []
          ⟨⟨1990, 2010⟩, none⟩).2
        ⟨⟨1990, 2010⟩, none⟩).1 = false := by
  decide

/-- C5 (amended): the resolution step is deterministic and never modifies
the context/epoch it inspects, but it does mutate the request's own
`contextDict`: when the result is `False` the state is unchanged, and when
the result is `True` the matched bounds have been recorded in the
`contextDict` (so a repeated call with the same arguments can return a
different result). -/
theorem doesThisContextMatch_state_change (req : WGRequest)
    (st : ContextDict) (c : Context) :
    ((doesThisContextMatch req st c).1 = false →
      (doesThisContextMatch req st c).2 = st) ∧
    ((doesThisContextMatch req st c).1 = true →
      ∃ b, c.getMatchInThisInterval (nextInitDateYr req st) req.toYr
          (req.source == "FromObservation") = some b ∧
        (doesThisContextMatch req st c).2 = odSetItem st c b) := by
  unfold doesThisContextMatch
  by_cases hgt : nextInitDateYr req st > req.toYr
  · simp [hgt]
  · simp only [hgt, if_false]
    rcases hm : c.getMatchInThisInterval (nextInitDateYr req st) req.toYr
        (req.source == "FromObservation") with _ | b
    · simp
    · simp

/-- Witness for `doesThisContextMatch_state_change` at a concrete matching
call. -/
theorem doesThisContextMatch_state_change_witness :
    ∃ b, Context.getMatchInThisInterval ⟨⟨1990, 2010⟩, none⟩
        (nextInitDateYr ⟨1990, 2010, "FromNormals"⟩ []) 2010
        ((⟨1990, 2010, "FromNormals"⟩ : WGRequest).source == "FromObservation") =
          some b ∧
      (doesThisContextMatch ⟨1990, 2010, "FromNormals"⟩ []
          ⟨⟨1990, 2010⟩, none⟩).2 =
        odSetItem [] ⟨⟨1990, 2010⟩, none⟩ b :=
  (doesThisContextMatch_state_change ⟨1990, 2010, "FromNormals"⟩ []
    ⟨⟨1990, 2010⟩, none⟩).2 (by decide)

/-! ### Decimal rendering of cache tickets

The cache keys are produced by Python's `str(ticketNumber)`, embedded as
`Nat.repr`.  Distinct tickets yield distinct keys; this is established by
exhibiting a decoder that is a left inverse of `Nat.repr`. -/

/-- Value of a decimal digit character. -/
def digitVal (c : Char) : Nat := c.toNat - '0'.toNat

/-- Decode a decimal digit string back to a number. -/
def decodeDigits (l : List Char) : Nat :=
  l.foldl (fun acc c => acc * 10 + digitVal c) 0

/-- Push the decimal digits of `n` onto the accumulator `acc`. -/
def pushNat (acc : Nat) (n : Nat) : Nat :=
  if h : n / 10 = 0 then acc * 10 + n
  else pushNat acc (n / 10) * 10 + n % 10
termination_by n
decreasing_by omega

theorem digitVal_digitChar {d : Nat} (h : d < 10) :
    digitVal (Nat.digitChar d) = d := by
  have hall : ∀ d, d < 10 → digitVal (Nat.digitChar d) = d := by decide
  exact hall d h

theorem toDigitsCore_decode (fuel : Nat) : ∀ (n : Nat) (ds : List Char) (acc : Nat),
    n < fuel →
    (Nat.toDigitsCore 10 fuel n ds).foldl (fun acc c => acc * 10 + digitVal c) acc =
      ds.foldl (fun acc c => acc * 10 + digitVal c) (pushNat acc n) := by
  induction fuel with
  | zero => intro n ds acc h; omega
  | succ f ih =>
    intro n ds acc h
    simp only [Nat.toDigitsCore]
    by_cases h10 : n / 10 = 0
    · rw [if_pos h10, List.foldl_cons, digitVal_digitChar (by omega)]
      rw [pushNat, dif_pos h10]
      congr 2
      omega
    · rw [if_neg h10]
      conv_rhs => rw [pushNat, dif_neg h10]
      rw [ih (n / 10) _ acc (by omega), List.foldl_cons, digitVal_digitChar (by omega)]

theorem pushNat_zero (n : Nat) : pushNat 0 n = n := by
  induction n using Nat.strong_induction_on with
  | _ n ih =>
    rw [pushNat]
    by_cases h10 : n / 10 = 0
    · simp [h10]
    · rw [dif_neg h10, ih (n / 10) (by omega)]
      omega

theorem decodeDigits_repr (n : Nat) : decodeDigits (Nat.repr n).data = n := by
  show decodeDigits (Nat.toDigits 10 n) = n
  unfold decodeDigits Nat.toDigits
  rw [toDigitsCore_decode (n + 1) n [] 0 (by omega)]
  simp [pushNat_zero]

theorem repr_injective {a b : Nat} (h : Nat.repr a = Nat.repr b) : a = b := by
  have ha := decodeDigits_repr a
  have hb := decodeDigits_repr b
  rw [h] at ha
  omega

/-! ### `bsrequest.py`: the reference cache (`AbstractRequest.library`) -/

/-- `AbstractRequest.maxNumberWgoutInstances`, the cache capacity. -/
def maxNumberWgoutInstances : Nat := 100000

/-- The mutable class-level state used by the cache operations:
`AbstractRequest.library` (an insertion-ordered map from string handles to
cached objects) and `TeleIODictList.ticketNumber`. -/
structure Library (V : Type) where
  entries : List (String × V)
  ticketNumber : Nat
  deriving Repr, DecidableEq

variable {V : Type}

/-- The insertion loop of `TeleIODictList.registerTeleIODictList`
(`bsrequest.py` lines 531-544): each element is stored under the key
`str(TeleIODictList.ticketNumber)`, the ticket is incremented, and the
keys are accumulated (space-separated) into the returned `outputStr`. -/
def registerLoop : (String × Library V) → List V → String × Library V
  | acc, [] => acc
  | (outputStr, lb), v :: vs =>
      let key := Nat.repr lb.ticketNumber
      registerLoop
        (if outputStr.length = 0 then outputStr ++ key
         else outputStr ++ (" " ++ key),
         ⟨odSetItem lb.entries key v, lb.ticketNumber + 1⟩) vs

/-- The eviction loop of `registerTeleIODictList` (lines 545-547):
`while len(library) > maxNumberWgoutInstances: del library[firstkey]` —
the oldest (front) entry is deleted until the bound holds. -/
def evictWhile (maxN : Nat) : List (String × V) → List (String × V)
  | [] => []
  | x :: xs => if (x :: xs).length > maxN then evictWhile maxN xs else x :: xs

/-- `TeleIODictList.registerTeleIODictList`, with the capacity
`maxNumberWgoutInstances` as an explicit parameter `maxN`. -/
def registerTeleIODictList (maxN : Nat) (lib : Library V) (vals : List V) :
    String × Library V :=
  let r := registerLoop ("", lib) vals
  (r.1, ⟨evictWhile maxN r.2.entries, r.2.ticketNumber⟩)

/-- `OrderedDict.move_to_end(key, last=True)`: the entry of `key` is moved
to the most-recent (last) position; other entries keep their order. -/
def moveToEnd (entries : List (String × V)) (key : String) :
    List (String × V) :=
  match entries.lookup key with
  | some v => entries.eraseP (fun p => p.1 == key) ++ [(key, v)]
  | none => entries

/-- `TeleIODictList.getTeleIODictList` (`bsrequest.py` lines 574-584):
for each requested key, a found object is moved to the most-recent
position and appended to the returned list; an absent key is silently
skipped. -/
def getTeleIODictList (keys : List String) (lib : Library V) :
    List V × Library V :=
  keys.foldl
    (fun acc key =>
      match acc.2.entries.lookup key with
      | some obj =>
          (acc.1 ++ [obj], ⟨moveToEnd acc.2.entries key, acc.2.ticketNumber⟩)
      | none => acc)
    ([], lib)

/-- The entries inserted for `vals` starting at ticket `t`. -/
def freshEntries (t : Nat) : List V → List (String × V)
  | [] => []
  | v :: vs => (Nat.repr t, v) :: freshEntries (t + 1) vs

/-- Invariant of the library: handle keys are distinct and every key is
the rendering of an already-consumed ticket. -/
def LibraryWF (lib : Library V) : Prop :=
  (lib.entries.map Prod.fst).Nodup ∧
  ∀ k ∈ lib.entries.map Prod.fst, ∃ i, i < lib.ticketNumber ∧ k = Nat.repr i

/-! ### Cache lemmas -/

theorem lookup_mem {l : List (String × V)} {k : String} {v : V} :
    l.lookup k = some v → (k, v) ∈ l := by
  induction l with
  | nil => intro h; cases h
  | cons x xs ih =>
    intro h
    obtain ⟨k0, v0⟩ := x
    simp only [List.lookup] at h
    cases hbeq : (k == k0) with
    | true =>
      rw [hbeq] at h
      simp only [] at h
      cases h
      have hk : k = k0 := eq_of_beq hbeq
      subst hk
      exact List.mem_cons_self _ _
    | false =>
      rw [hbeq] at h
      simp only [] at h
      exact List.mem_cons_of_mem _ (ih h)

theorem lookup_cons_ne {k0 : String} {v0 : V} {xs : List (String × V)}
    {k : String} (h : k0 ≠ k) :
    ((k0, v0) :: xs).lookup k = xs.lookup k := by
  have hbeq : (k == k0) = false := by
    simp only [beq_eq_false_iff_ne]
    exact fun he => h he.symm
  simp only [List.lookup, hbeq]

theorem length_eraseP_key {l : List (String × V)} {k : String} {v : V} :
    l.lookup k = some v →
    (l.eraseP (fun p => p.1 == k)).length + 1 = l.length := by
  induction l with
  | nil => intro h; cases h
  | cons x xs ih =>
    intro h
    obtain ⟨k0, v0⟩ := x
    simp only [List.eraseP]
    cases hbeq : (k0 == k) with
    | true => simp
    | false =>
      have hne : k0 ≠ k := by simpa using hbeq
      rw [lookup_cons_ne hne] at h
      simp only [cond_false, List.length_cons]
      rw [ih h]

theorem keys_eraseP_subset (l : List (String × V)) (k : String) :
    ((l.eraseP (fun p => p.1 == k)).map Prod.fst) ⊆ l.map Prod.fst :=
  ((l.eraseP_sublist).map Prod.fst).subset

theorem moveToEnd_head_ne {e0 : String × V} {rest : List (String × V)}
    {k : String} {v : V} (hne : e0.1 ≠ k)
    (h : ((e0 :: rest)).lookup k = some v) :
    moveToEnd (e0 :: rest) k =
      e0 :: (rest.eraseP (fun p => p.1 == k) ++ [(k, v)]) := by
  unfold moveToEnd
  rw [h]
  obtain ⟨k0, v0⟩ := e0
  have hbeq : (k0 == k) = false := by simpa using hne
  simp [List.eraseP, hbeq]

theorem getTeleIODictList_single {lib : Library V} {k : String} {v : V}
    (h : lib.entries.lookup k = some v) :
    getTeleIODictList [k] lib =
      ([v], ⟨moveToEnd lib.entries k, lib.ticketNumber⟩) := by
  simp [getTeleIODictList, h]

theorem registerLoop_entries (vals : List V) : ∀ (s : String) (lib : Library V),
    (∀ k ∈ lib.entries.map Prod.fst, ∃ i, i < lib.ticketNumber ∧ k = Nat.repr i) →
    (registerLoop (s, lib) vals).2 =
      ⟨lib.entries ++ freshEntries lib.ticketNumber vals,
       lib.ticketNumber + vals.length⟩ := by
  induction vals with
  | nil =>
    intro s lib hk
    simp [registerLoop, freshEntries]
  | cons v vs ih =>
    intro s lib hk
    simp only [registerLoop]
    have hfresh : Nat.repr lib.ticketNumber ∉ lib.entries.map Prod.fst := by
      intro hmem
      obtain ⟨i, hi, hrepr⟩ := hk _ hmem
      have := repr_injective hrepr
      omega
    have hset : odSetItem lib.entries (Nat.repr lib.ticketNumber) v =
        lib.entries ++ [(Nat.repr lib.ticketNumber, v)] := by
      simp [odSetItem, hfresh]
    rw [hset]
    rw [ih _ ⟨lib.entries ++ [(Nat.repr lib.ticketNumber, v)],
          lib.ticketNumber + 1⟩ ?_]
    · dsimp only
      congr 1
      · simp [freshEntries, List.append_assoc]
      · simp only [List.length_cons]
        omega
    · intro k hkmem
      dsimp only at hkmem ⊢
      simp only [List.map_append, List.mem_append, List.map_cons,
        List.mem_singleton] at hkmem
      rcases hkmem with hkmem | hkmem
      · obtain ⟨i, hi, hrepr⟩ := hk _ hkmem
        exact ⟨i, by omega, hrepr⟩
      · exact ⟨lib.ticketNumber, by omega, by simpa using hkmem⟩

theorem freshEntries_length (t : Nat) (vs : List V) :
    (freshEntries t vs).length = vs.length := by
  induction vs generalizing t with
  | nil => rfl
  | cons v vs ih => simp [freshEntries, ih]

theorem freshEntries_keys {vs : List V} : ∀ {t : Nat} {k : String},
    k ∈ (freshEntries t vs).map Prod.fst →
    ∃ i, i < vs.length ∧ k = Nat.repr (t + i) := by
  induction vs with
  | nil => intro t k h; simp [freshEntries] at h
  | cons v vs ih =>
    intro t k h
    simp only [freshEntries, List.map_cons, List.mem_cons] at h
    rcases h with h | h
    · exact ⟨0, by simp, by simpa using h⟩
    · obtain ⟨i, hi, hk⟩ := ih h
      refine ⟨i + 1, by simp; omega, ?_⟩
      rw [hk]
      congr 1
      omega

theorem evictWhile_length_le (maxN : Nat) (l : List (String × V)) :
    (evictWhile maxN l).length ≤ maxN := by
  induction l with
  | nil => simp [evictWhile]
  | cons x xs ih =>
    simp only [evictWhile]
    by_cases h : (x :: xs).length > maxN
    · rw [if_pos h]; exact ih
    · rw [if_neg h]; omega

theorem evictWhile_eq_drop (maxN : Nat) (l : List (String × V)) :
    evictWhile maxN l = l.drop (l.length - maxN) := by
  induction l with
  | nil => simp [evictWhile]
  | cons x xs ih =>
    simp only [evictWhile]
    by_cases h : (x :: xs).length > maxN
    · rw [if_pos h, ih]
      have hlen : (x :: xs).length - maxN = (xs.length - maxN) + 1 := by
        simp only [List.length_cons] at h ⊢
        omega
      rw [hlen, List.drop_succ_cons]
    · rw [if_neg h]
      have hlen : (x :: xs).length - maxN = 0 := by
        simp only [List.length_cons] at h ⊢
        omega
      rw [hlen, List.drop_zero]

/-! ### Claim C3 -/

/-- C3: the reference cache is a capacity-bounded LRU map.
(i) After every `registerTeleIODictList` call the cache holds at most
`maxN` entries.  (ii) Inserting `C + 1` entries into an empty cache of
capacity `C` leaves exactly the `C` most recent entries: the
first-inserted entry (ticket `t0`), never read, is evicted.
(iii) Reading an entry via `getTeleIODictList` before a new insertion
moves it to the most-recent position, so a subsequent insertion that
overflows the capacity evicts the untouched oldest entry while the read
entry survives. -/
theorem library_lru_cache_behavior :
    (∀ (maxN : Nat) (lib : Library V) (vals : List V),
      (registerTeleIODictList maxN lib vals).2.entries.length ≤ maxN) ∧
    (∀ (c t0 : Nat) (v : V) (vs : List V), vs.length = c →
      (registerTeleIODictList c ⟨[], t0⟩ (v :: vs)).2.entries =
        freshEntries (t0 + 1) vs ∧
      (registerTeleIODictList c ⟨[], t0⟩ (v :: vs)).2.entries.length = c ∧
      Nat.repr t0 ∉
        ((registerTeleIODictList c ⟨[], t0⟩ (v :: vs)).2.entries.map Prod.fst)) ∧
    (∀ (lib : Library V) (e0 : String × V) (rest : List (String × V))
        (k : String) (v w : V), LibraryWF lib → lib.entries = e0 :: rest →
      e0.1 ≠ k → lib.entries.lookup k = some v →
      k ∈ ((registerTeleIODictList lib.entries.length
          (getTeleIODictList [k] lib).2 [w]).2.entries.map Prod.fst) ∧
      e0.1 ∉ ((registerTeleIODictList lib.entries.length
          (getTeleIODictList [k] lib).2 [w]).2.entries.map Prod.fst)) := by
  refine ⟨?_, ?_, ?_⟩
  · intro maxN lib vals
    exact evictWhile_length_le maxN _
  · intro c t0 v vs hlen
    have hreg := registerLoop_entries (v :: vs) "" ⟨[], t0⟩ (by simp)
    have hent :
        (registerTeleIODictList c ⟨[], t0⟩ (v :: vs)).2.entries =
          freshEntries (t0 + 1) vs := by
      simp only [registerTeleIODictList, hreg]
      rw [evictWhile_eq_drop]
      have hfl : (freshEntries t0 (v :: vs) : List (String × V)).length = c + 1 := by
        rw [freshEntries_length]
        simp [hlen]
      rw [List.nil_append, hfl]
      have : c + 1 - c = 1 := by omega
      rw [this]
      simp [freshEntries]
    refine ⟨hent, ?_, ?_⟩
    · rw [hent, freshEntries_length, hlen]
    · rw [hent]
      intro hmem
      obtain ⟨i, hi, hk⟩ := freshEntries_keys hmem
      have := repr_injective hk
      omega
  · intro lib e0 rest k v w hwf hent hne hlook
    obtain ⟨hnodup, hbelow⟩ := hwf
    have hget : (getTeleIODictList [k] lib).2 =
        ⟨moveToEnd lib.entries k, lib.ticketNumber⟩ := by
      rw [getTeleIODictList_single hlook]
    have hmove : moveToEnd lib.entries k =
        e0 :: (rest.eraseP (fun p => p.1 == k) ++ [(k, v)]) := by
      rw [hent]
      exact moveToEnd_head_ne hne (hent ▸ hlook)
    have hlookrest : rest.lookup k = some v := by
      rw [hent] at hlook
      obtain ⟨k0, v0⟩ := e0
      rwa [lookup_cons_ne hne] at hlook
    have hlenrest : (rest.eraseP (fun p => p.1 == k)).length + 1 = rest.length :=
      length_eraseP_key hlookrest
    have hkmemlib : k ∈ lib.entries.map Prod.fst := by
      exact List.mem_map.mpr ⟨(k, v), lookup_mem hlook, rfl⟩
    have hbelow2 : ∀ kk ∈ ((e0 :: (rest.eraseP (fun p => p.1 == k) ++ [(k, v)])).map
        Prod.fst), ∃ i, i < lib.ticketNumber ∧ kk = Nat.repr i := by
      intro kk hkk
      simp only [List.map_cons, List.map_append, List.mem_cons,
        List.mem_append, List.map_nil, List.not_mem_nil, or_false] at hkk
      rcases hkk with hkk | hkk | hkk
      · exact hbelow kk (by rw [hent]; simp [hkk])
      · have : kk ∈ rest.map Prod.fst := keys_eraseP_subset rest k hkk
        exact hbelow kk (by rw [hent]; simp [this])
      · subst hkk
        exact hbelow kk hkmemlib
    have hreg := registerLoop_entries [w] ""
      ⟨e0 :: (rest.eraseP (fun p => p.1 == k) ++ [(k, v)]), lib.ticketNumber⟩
      hbelow2
    have hfinal :
        (registerTeleIODictList lib.entries.length
            (getTeleIODictList [k] lib).2 [w]).2.entries =
          (rest.eraseP (fun p => p.1 == k) ++ [(k, v)]) ++
            [(Nat.repr lib.ticketNumber, w)] := by
      rw [hget]
      simp only [registerTeleIODictList]
      rw [show (⟨moveToEnd lib.entries k, lib.ticketNumber⟩ : Library V) =
          ⟨e0 :: (rest.eraseP (fun p => p.1 == k) ++ [(k, v)]), lib.ticketNumber⟩
          from by rw [hmove]]
      rw [hreg]
      dsimp only
      rw [evictWhile_eq_drop]
      have hlen1 : (e0 :: (rest.eraseP (fun p => p.1 == k) ++ [(k, v)]) ++
          freshEntries lib.ticketNumber [w]).length = lib.entries.length + 1 := by
        simp only [freshEntries, List.length_append, List.length_cons,
          List.length_nil]
        rw [hent]
        simp only [List.length_cons]
        omega
      rw [hlen1]
      have : lib.entries.length + 1 - lib.entries.length = 1 := by omega
      rw [this]
      simp [freshEntries]
    rw [hfinal]
    constructor
    · simp
    · intro hmem
      simp only [List.map_append, List.mem_append, List.map_cons, List.map_nil,
        List.mem_cons, List.not_mem_nil, or_false] at hmem
      have hnotinrest : e0.1 ∉ rest.map Prod.fst := by
        rw [hent] at hnodup
        simp only [List.map_cons, List.nodup_cons] at hnodup
        exact hnodup.1
      rcases hmem with (hmem | hmem) | hmem
      · exact hnotinrest (keys_eraseP_subset rest k hmem)
      · exact hne hmem
      · obtain ⟨i, hi, hrepr⟩ := hbelow e0.1 (by rw [hent]; simp)
        rw [hrepr] at hmem
        have := repr_injective hmem
        omega

/-- Witness for `library_lru_cache_behavior` at a concrete two-entry
cache of capacity 2: entry `"1"` is read, then a new entry is inserted;
the read entry survives and the untouched entry `"0"` is evicted.  The
middle clause is also instantiated at capacity 1 with two insertions. -/
theorem library_lru_cache_behavior_witness :
    ((registerTeleIODictList 1 ⟨[], 5⟩ [10, 20]).2.entries =
        freshEntries 6 [20] ∧
      (registerTeleIODictList 1 (⟨[], 5⟩ : Library Nat) [10, 20]).2.entries.length = 1 ∧
      Nat.repr 5 ∉
        ((registerTeleIODictList 1 (⟨[], 5⟩ : Library Nat) [10, 20]).2.entries.map
          Prod.fst)) ∧
    ("1" ∈ ((registerTeleIODictList 2
        (getTeleIODictList ["1"] ⟨[("0", 10), ("1", 20)], 2⟩).2
        [30]).2.entries.map Prod.fst) ∧
      "0" ∉ ((registerTeleIODictList 2
        (getTeleIODictList ["1"] (⟨[("0", 10), ("1", 20)], 2⟩ : Library Nat)).2
        [30]).2.entries.map Prod.fst)) := by
  constructor
  · exact library_lru_cache_behavior.2.1 1 5 10 [20] (by decide)
  · exact library_lru_cache_behavior.2.2 ⟨[("0", 10), ("1", 20)], 2⟩
      ("0", 10) [("1", 20)] "1" 20 30
      (by constructor
          · decide
          · intro k hk
            fin_cases hk
            · exact ⟨0, by decide, by decide⟩
            · exact ⟨1, by decide, by decide⟩)
      rfl (by decide) (by decide)

/-! ### Claim C4 -/

/-- The `wgout` fragment of `ModelRequest.checkParmsValues`
(`bsrequest.py` lines 341-352): the handles are looked up with
`TeleIODictList.getTeleIODictList`; the code then tests the result
against `None`, but `getTeleIODictList` always returns a list (absent
handles are silently skipped), so the `None` branch — the only place the
"reference is not found" error is produced — is dead. -/
def checkParmsValuesWgout (lib : Library V) (keys : List String)
    (errMsg : String) : String × List V :=
  let teleIODictList : Option (List V) := some (getTeleIODictList keys lib).1
  match teleIODictList with
  | none => (updateErrMsg errMsg
      "The wgout object reference is not found in the library!", [])
  | some t => (errMsg, t)

/-- C4 (code bug): a `ModelRequest` whose `wgout` parameter holds a handle
absent from the reference cache is *not* rejected: on an empty cache the
handle `"99"` produces no error message and an empty (silently truncated)
result list; in general the error message is never extended by the wgout
check, for any library and any handle list. -/
theorem modelRequest_absent_handle_not_reported :
    checkParmsValuesWgout (⟨[], 0⟩ : Library Nat) ["99"] "" = ("", []) ∧
    ∀ (lib : Library V) (keys : List String) (errMsg : String),
      (checkParmsValuesWgout lib keys errMsg).1 = errMsg := by
  constructor
  · rfl
  · intro lib keys errMsg
    rfl

/-! ### `bsrequest.py`: `TeleIODict` merging -/

/-- The fields of a `TeleIODict` instance relevant to merging and text
parsing: the header line `self["header"]` and the per-replication text
blocks `self["replist"]`.  The pass-through fields (`comment`,
`compress`, `data`, `metadata`, `msg`) play no role in the merge logic
and are omitted. -/
structure TeleIODictRec where
  header : String
  replist : List String
  deriving Repr, DecidableEq

/-- `TeleIODict.__merge__` (`bsrequest.py` lines 709-715): requires the
same number of replications and concatenates the text blocks
replicate-by-replicate (`thisRepList[i] += thatRepList[i]`).  A mismatch
raises; the headers are never compared.  (The Python `raise` is given a
plain string, which itself raises a `TypeError`; either way an exception
propagates, embedded as `Except.error`.) -/
def TeleIODictRec.pymerge (self w : TeleIODictRec) :
    Except String TeleIODictRec :=
  if self.replist.length ≠ w.replist.length then
    .error "The w argument should be a WeatherGeneratorLocation instance with the same number of replications!"
  else
    .ok ⟨self.header, List.zipWith (fun a b => a ++ b) self.replist w.replist⟩

/-- The merge loop of `TeleIODictList.add`: `self[i].__merge__(l[i])` for
`i` in `range(len(l))`; indexing past the end of `self` is an
`IndexError`. -/
def mergeAll : List TeleIODictRec → List TeleIODictRec →
    Except String (List TeleIODictRec)
  | _, [] => .ok []
  | [], _ :: _ => .error "IndexError: list index out of range"
  | a :: as, b :: bs =>
      match a.pymerge b with
      | .error e => .error e
      | .ok m =>
          match mergeAll as bs with
          | .error e => .error e
          | .ok rest => .ok (m :: rest)

/-- `TeleIODictList.add` (`bsrequest.py` lines 509-525): a nonempty
receiver requires `len(l) == len(self)` (else it raises); an empty
receiver appends all entries of `l`; otherwise the entries are merged
pairwise.  (The `isinstance` check is always true in the typed model.) -/
def teleIODictListAdd (self l : List TeleIODictRec) :
    Except String (List TeleIODictRec) :=
  if self.length > 0 ∧ l.length ≠ self.length then
    .error "WeatherGeneratorList.add: the list is not compatible!"
  else if self.length = 0 then
    .ok l
  else
    mergeAll self l

theorem mergeAll_ok_replicates {as bs : List TeleIODictRec}
    {ys : List TeleIODictRec} :
    mergeAll as bs = .ok ys →
    ∀ (i : Nat) (a b : TeleIODictRec), as.get? i = some a →
      bs.get? i = some b → a.replist.length = b.replist.length := by
  induction as generalizing bs ys with
  | nil =>
    intro h i a b ha hb
    cases ha
  | cons a0 as ih =>
    intro h i a b ha hb
    cases bs with
    | nil => cases hb
    | cons b0 bs =>
      simp only [mergeAll] at h
      rcases hm : a0.pymerge b0 with e | m
      · rw [hm] at h; cases h
      · rw [hm] at h
        rcases hrest : mergeAll as bs with e | rest
        · rw [hrest] at h; cases h
        · cases i with
          | zero =>
            injection ha with ha2
            injection hb with hb2
            subst ha2
            subst hb2
            simp only [TeleIODictRec.pymerge] at hm
            by_cases hlen : a0.replist.length = b0.replist.length
            · exact hlen
            · rw [if_pos hlen] at hm
              cases hm
          | succ i =>
            exact ih hrest i a b ha hb

/-! ### Claim C6 -/

/-- C6 counterexample: headers are *not* validated by the merge.  Two
`TeleIODict`s with different header field lists but equal replicate
counts merge without any error — the mismatched data is silently
concatenated under the first header. -/
theorem merge_ignores_header_counterexample :
    ("A,Year" : String) ≠ "B,Year" ∧
    TeleIODictRec.pymerge ⟨"A,Year", ["x\n"]⟩ ⟨"B,Year", ["y\n"]⟩ =
      .ok ⟨"A,Year", ["x\ny\n"]⟩ := by
  constructor
  · decide
  · rfl

/-- C6 (amended): merging per-epoch partial results raises a reported
fatal error for a location when the lists to merge have different lengths
or when a location's replicate counts differ — such data is never
silently dropped or concatenated — but the header field lists are not
compared: inputs with differing headers (and matching replicate counts)
are silently concatenated. -/
theorem teleIODictListAdd_mismatch_raises :
    (∀ (self l : List TeleIODictRec), self.length > 0 →
      l.length ≠ self.length →
      teleIODictListAdd self l =
        .error "WeatherGeneratorList.add: the list is not compatible!") ∧
    (∀ (self l : List TeleIODictRec) (i : Nat) (a b : TeleIODictRec),
      self.length = l.length → self.get? i = some a → l.get? i = some b →
      a.replist.length ≠ b.replist.length →
      ∃ e, teleIODictListAdd self l = .error e) ∧
    (∀ (a b : TeleIODictRec), a.replist.length = b.replist.length →
      a.pymerge b =
        .ok ⟨a.header, List.zipWith (fun x y => x ++ y) a.replist b.replist⟩) := by
  refine ⟨?_, ?_, ?_⟩
  · intro self l hpos hne
    simp [teleIODictListAdd, hpos, hne]
  · intro self l i a b hlen ha hb hmis
    have hpos : self.length > 0 := by
      cases self with
      | nil => cases ha
      | cons x xs => simp
    have hguard : ¬(self.length > 0 ∧ l.length ≠ self.length) := by
      simp [hlen]
    have hzero : ¬(self.length = 0) := by omega
    rcases hres : mergeAll self l with e | ys
    · refine ⟨e, ?_⟩
      simp only [teleIODictListAdd, if_neg hguard, if_neg hzero]
      exact hres
    · exact absurd (mergeAll_ok_replicates hres i a b ha hb) hmis
  · intro a b hlen
    simp [TeleIODictRec.pymerge, hlen]

/-- Witness for `teleIODictListAdd_mismatch_raises`: a length mismatch
and a replicate-count mismatch both raise, and a header mismatch does
not. -/
theorem teleIODictListAdd_mismatch_raises_witness :
    teleIODictListAdd [⟨"H", ["x\n"]⟩] [] =
      .error "WeatherGeneratorList.add: the list is not compatible!" ∧
    (∃ e, teleIODictListAdd [⟨"H", ["x\n"]⟩] [⟨"H", ["y\n", "z\n"]⟩] =
      .error e) ∧
    TeleIODictRec.pymerge ⟨"A,Year", ["x\n"]⟩ ⟨"B,Year", ["y\n"]⟩ =
      .ok ⟨"A,Year", List.zipWith (fun x y => x ++ y) ["x\n"] ["y\n"]⟩ := by
  refine ⟨?_, ?_, ?_⟩
  · exact teleIODictListAdd_mismatch_raises.1 [⟨"H", ["x\n"]⟩] [] (by decide)
      (by decide)
  · exact teleIODictListAdd_mismatch_raises.2.1 [⟨"H", ["x\n"]⟩]
      [⟨"H", ["y\n", "z\n"]⟩] 0 ⟨"H", ["x\n"]⟩ ⟨"H", ["y\n", "z\n"]⟩
      (by decide) (by decide) (by decide) (by decide)
  · exact teleIODictListAdd_mismatch_raises.2.2 ⟨"A,Year", ["x\n"]⟩
      ⟨"B,Year", ["y\n"]⟩ (by decide)

/-! ### `bsrequest.py` / `bsutility.py`: `TeleIODict.__parseText__`
(weather-generation branch) -/

/-- Python's `str.split(sep)` for a one-character separator, by
structural recursion on the character list (every occurrence splits; no
collapsing; `"".split(sep) == [""]`). -/
def splitChars (sep : Char) : List Char → List (List Char)
  | [] => [[]]
  | c :: rest =>
      match splitChars sep rest, decide (c = sep) with
      | r, true => [] :: r
      | [], false => [[c]]
      | w :: ws, false => (c :: w) :: ws

/-- Python's `text.split(sep)` on strings, single-character separator. -/
def pySplit (sep : Char) (s : String) : List String :=
  (splitChars sep s.data).map (fun w => ⟨w⟩)

/-- The numeric value of a decimal digit character, if any. -/
def digitOfChar (c : Char) : Option Nat :=
  if '0' ≤ c ∧ c ≤ '9' then some (c.toNat - '0'.toNat) else none

/-- Parse an unsigned decimal numeral. -/
def pyNat : List Char → Option Nat
  | [] => none
  | l => l.foldl
      (fun acc c =>
        match acc, digitOfChar c with
        | some n, some d => some (n * 10 + d)
        | _, _ => none)
      (some 0)

/-- Python's `int(s)` restricted to an optional leading minus sign and
decimal digits (the only shapes the engine emits in the `Year` column);
any other string raises, embedded as `none`. -/
def pyInt (s : String) : Option Int :=
  match s.data with
  | '-' :: rest => (pyNat rest).map (fun n => -(n : Int))
  | l => (pyNat l).map (fun n => (n : Int))

/-- `TeleIODict.__parseListToString__`: join the values with commas. -/
def parseListToString : List String → String
  | [] => ""
  | [x] => x
  | x :: y :: xs => x ++ "," ++ parseListToString (y :: xs)

/-- The weather-generation branch of the per-line processing inside
`TeleIODict.__parseText__` (`bsrequest.py` lines 634-640, duplicated in
`bsutility.py` lines 195-201): the line is split on commas, the `Year`
field is parsed as an int (a parse failure propagates as an exception),
and a value `thisYear ≤ 0` is replaced by `dateYr + thisYear` before the
line is re-joined; a positive year leaves the line untouched. -/
def processWGLine (indexYearField : Nat) (dateYr : Int) (myLine : String) :
    Except String String :=
  let values := pySplit ',' myLine
  match values.get? indexYearField with
  | none => .error "IndexError: list index out of range"
  | some s =>
      match pyInt s with
      | none => .error "ValueError: invalid literal for int"
      | some thisYear =>
          if thisYear ≤ 0 then
            .ok (parseListToString
              (values.set indexYearField (toString (dateYr + thisYear))))
          else .ok myLine

/-- The replication-splitting loop of `__parseText__` (weather-generation
branch): a line equal to the header closes the current replication block,
a nonempty line is processed and appended to the current block, an empty
line is skipped; the final block is appended after the loop. -/
def parseWGLines (header : String) (indexYearField : Nat) (dateYr : Int) :
    List String → String → Except String (List String)
  | [], stringForThisRep => .ok [stringForThisRep]
  | line :: rest, stringForThisRep =>
      if line = header then
        match parseWGLines header indexYearField dateYr rest "" with
        | .error e => .error e
        | .ok reps => .ok (stringForThisRep :: reps)
      else if line.length > 0 then
        match processWGLine indexYearField dateYr line with
        | .error e => .error e
        | .ok myLine =>
            parseWGLines header indexYearField dateYr rest
              (stringForThisRep ++ myLine ++ "\n")
      else parseWGLines header indexYearField dateYr rest stringForThisRep

/-- `TeleIODict.__parseText__` with `isWeatherGenerationOutput = True`,
working on the already-split list of lines: the first line is the header,
`indexYearField = headerFields.index("Year")` (absence raises), and the
remaining lines are distributed into replication blocks. -/
def parseTextLinesWG (dateYr : Int) (lines : List String) :
    Except String TeleIODictRec :=
  match lines with
  | [] => .error "IndexError: no header line"
  | header :: rest =>
      let headerFields := pySplit ',' header
      match headerFields.findIdx? (fun f => f == "Year") with
      | none => .error "ValueError: substring not found"
      | some indexYearField =>
          match parseWGLines header indexYearField dateYr rest "" with
          | .error e => .error e
          | .ok reps => .ok ⟨header, reps⟩

/-- `TeleIODict.__parseText__` (weather-generation branch) on the raw
text: `lines = text.split("\n")`. -/
def parseTextWG (dateYr : Int) (text : String) : Except String TeleIODictRec :=
  parseTextLinesWG dateYr (pySplit '\n' text)

/-! ### Claim C7 -/

/-- C7: in a weather-generation output, a data line whose `Year` field
parses to an integer `y ≤ 0` has that field replaced by `dateYr + y`
(where `dateYr` is the owning span's upper-bound year, the `datesYr[1]`
passed by `doProcess`); a line with `y > 0` is kept verbatim.  The third
clause exhibits the same fact through `__parseText__` itself on a
one-data-line text. -/
theorem parseText_rebasing_years :
    (∀ (idx : Nat) (dateYr y : Int) (line s : String),
      (pySplit ',' line).get? idx = some s → pyInt s = some y → y ≤ 0 →
      processWGLine idx dateYr line =
        .ok (parseListToString
          ((pySplit ',' line).set idx (toString (dateYr + y))))) ∧
    (∀ (idx : Nat) (dateYr y : Int) (line s : String),
      (pySplit ',' line).get? idx = some s → pyInt s = some y → 0 < y →
      processWGLine idx dateYr line = .ok line) ∧
    (∀ (idx : Nat) (dateYr : Int) (header line processed : String),
      (pySplit ',' header).findIdx? (fun f => f == "Year") = some idx →
      line ≠ header → line.length > 0 →
      processWGLine idx dateYr line = .ok processed →
      parseTextLinesWG dateYr [header, line] =
        .ok ⟨header, [processed ++ "\n"]⟩) := by
  refine ⟨?_, ?_, ?_⟩
  · intro idx dateYr y line s hget hparse hy
    simp only [processWGLine, hget, hparse, if_pos hy]
  · intro idx dateYr y line s hget hparse hy
    have hnot : ¬(y ≤ 0) := by omega
    simp only [processWGLine, hget, hparse, if_neg hnot]
  · intro idx dateYr header line processed hidx hne hlen hproc
    simp only [parseTextLinesWG, hidx, parseWGLines, if_neg hne, if_pos hlen,
      hproc]
    rfl

/-- Witness for `parseText_rebasing_years`: with header `Lat,Year`, span
upper bound 2010 and data line `45.5,-2`, the year is rebased to 2008;
the positive-year line `45.5,1998` is untouched. -/
theorem parseText_rebasing_years_witness :
    processWGLine 1 2010 "45.5,-2" = .ok (parseListToString
      ((pySplit ',' "45.5,-2").set 1 (toString ((2010 : Int) + (-2))))) ∧
    processWGLine 1 2010 "45.5,1998" = .ok "45.5,1998" ∧
    parseTextLinesWG 2010 ["Lat,Year", "45.5,-2"] =
      .ok ⟨"Lat,Year", ["45.5,2008" ++ "\n"]⟩ := by
  refine ⟨?_, ?_, ?_⟩
  · exact parseText_rebasing_years.1 1 2010 (-2) "45.5,-2" "-2" (by decide)
      (by decide) (by decide)
  · exact parseText_rebasing_years.2.1 1 2010 1998 "45.5,1998" "1998"
      (by decide) (by decide) (by decide)
  · exact parseText_rebasing_years.2.2 1 2010 "Lat,Year" "45.5,-2" "45.5,2008"
      (by decide) (by decide) (by decide) rfl

/-! ### `bsrequest.py`: elevation handling in `formatParms` /
`checkParmsValues` -/

/-- A Python float as used by the elevation checks: a numeric value
(embedded as a rational — only parsing and order comparisons occur, no
float arithmetic) or the NaN produced by `float('NaN')`. -/
inductive PyFloat
  | num (q : ℚ)
  | nan
  deriving DecidableEq, Repr

/-- `math.isnan`. -/
def pyIsNan : PyFloat → Bool
  | .nan => true
  | .num _ => false

/-- IEEE `<`: any comparison involving a NaN is false. -/
def pyLt : PyFloat → PyFloat → Bool
  | .num a, .num b => a < b
  | _, _ => false

/-- IEEE `>`: any comparison involving a NaN is false. -/
def pyGt : PyFloat → PyFloat → Bool
  | .num a, .num b => a > b
  | _, _ => false

/-- `AbstractRequest.minElevM`. -/
def minElevM : PyFloat := .num (-100)

/-- `AbstractRequest.maxElevM`. -/
def maxElevM : PyFloat := .num 9000

/-- The `elev` special case of `AbstractRequest.formatParms`
(`bsrequest.py` lines 121-125): `try: args[i] = float(args[i]) except:
args[i] = float('NaN')` — a string that fails to parse is silently
replaced by NaN (deferring to the DEM).  `parseFloat` abstracts Python's
`float()`. -/
def formatElevArg (parseFloat : String → Option PyFloat) (s : String) :
    PyFloat :=
  match parseFloat s with
  | some v => v
  | none => PyFloat.nan

/-- The elevation fragment of `AbstractRequest.checkParmsValues`
(`bsrequest.py` lines 168-173): the range comparison is nested under
`if math.isnan(elevValue):`. -/
def checkElevValues (elevValues : List PyFloat) (errMsg : String) : String :=
  elevValues.foldl
    (fun errMsg elevValue =>
      if pyIsNan elevValue then
        if pyLt elevValue minElevM || pyGt elevValue maxElevM then
          updateErrMsg errMsg
            "the elevation must range between -100.0 and 9000.0"
        else errMsg
      else errMsg)
    errMsg

/-! ### Claim C10 -/

/-- C10: request validation never reports an elevation-range error.  An
elevation string that fails to parse becomes NaN rather than being
rejected, and the elevation check leaves the error message untouched for
*every* list of elevation values — finite values (even outside
`[-100, 9000]`) skip the check because `math.isnan` is false, and NaN
values skip it because comparisons against NaN are always false. -/
theorem elevation_range_never_reported :
    (∀ (parseFloat : String → Option PyFloat) (s : String),
      parseFloat s = none → formatElevArg parseFloat s = PyFloat.nan) ∧
    (∀ (elevValues : List PyFloat) (errMsg : String),
      checkElevValues elevValues errMsg = errMsg) := by
  constructor
  · intro parseFloat s h
    simp [formatElevArg, h]
  · intro elevValues
    induction elevValues with
    | nil => intro errMsg; rfl
    | cons v vs ih =>
      intro errMsg
      cases v with
      | num q => simpa [checkElevValues, pyIsNan] using ih errMsg
      | nan => simpa [checkElevValues, pyIsNan, pyLt, pyGt] using ih errMsg

/-- Witness for `elevation_range_never_reported`: an unparseable
elevation becomes NaN, and the out-of-range elevation 20000 m produces no
error. -/
theorem elevation_range_never_reported_witness :
    formatElevArg (fun _ => none) "abc" = PyFloat.nan ∧
    checkElevValues [PyFloat.num 20000, PyFloat.nan] "" = "" := by
  constructor
  · exact elevation_range_never_reported.1 (fun _ => none) "abc" rfl
  · exact elevation_range_never_reported.2 [PyFloat.num 20000, PyFloat.nan] ""

/-! ### `bswrappers.py`: pooled dispatch (`doProcess`, multi-process
branch) -/

/-- A collected lookup pass: `mainDict[i]` for each index `i`, in order;
a missing tag is a `KeyError`. -/
def lookupAll (mainDict : List (Nat × V)) : List Nat → Except String (List V)
  | [] => .ok []
  | i :: is =>
      match mainDict.lookup i with
      | none => .error "KeyError"
      | some v =>
          match lookupAll mainDict is with
          | .error e => .error e
          | .ok rest => .ok (v :: rest)

/-- Events of the multi-process branch of
`BioSimNormalsAndWeatherGeneratorWrapper.doProcess`
(`bswrappers.py` lines 150-164), in program order. -/
inductive DispatchEvent
  | acquire
  | enqueue (tag : Nat)
  | dequeue (tag : Nat)
  | release
  deriving DecidableEq, Repr

/-- The multi-process branch of `doProcess`, for an abstract response
type `V`: the wrapper's lock is acquired, the `n` sub-requests are
enqueued (each dictionary carries its natural-order tag `natOrd = i`),
exactly `n` tagged responses are dequeued into `mainDict` keyed by their
tag, the lock is released, and finally `mainDict[0..n-1]` is read off in
order.  `responses` is the dequeued sequence in worker completion order
(each worker tags its response with the `natOrd` of the task it pulled,
`do_job` lines 46-51).  Returned alongside is the event trace. -/
def doProcessMulti (n : Nat) (responses : List (Nat × V)) :
    Except String (List V) × List DispatchEvent :=
  let mainDict := responses.foldl (fun d p => odSetItem d p.1 p.2) []
  (lookupAll mainDict (List.range n),
   DispatchEvent.acquire ::
     ((List.range n).map DispatchEvent.enqueue ++
      responses.map (fun p => DispatchEvent.dequeue p.1) ++
      [DispatchEvent.release]))

theorem foldl_odSetItem_eq_append {α β : Type} [DecidableEq α] :
    ∀ (l acc : List (α × β)), (l.map Prod.fst).Nodup →
    (∀ k ∈ l.map Prod.fst, k ∉ acc.map Prod.fst) →
    l.foldl (fun d p => odSetItem d p.1 p.2) acc = acc ++ l := by
  intro l
  induction l with
  | nil => intro acc _ _; simp
  | cons x xs ih =>
    intro acc hnd hdisj
    obtain ⟨k, v⟩ := x
    simp only [List.foldl_cons]
    have hknot : k ∉ acc.map Prod.fst := hdisj k (by simp)
    have hset : odSetItem acc k v = acc ++ [(k, v)] := by
      simp [odSetItem, hknot]
    rw [hset]
    simp only [List.map_cons, List.nodup_cons] at hnd
    rw [ih (acc ++ [(k, v)]) hnd.2 ?_]
    · simp
    · intro k2 hk2
      simp only [List.map_append, List.mem_append, List.map_cons,
        List.map_nil, List.mem_singleton, List.not_mem_nil, or_false,
        List.mem_cons]
      intro hor
      rcases hor with hor | hor
      · exact hdisj k2 (by simp [hk2]) hor
      · subst hor
        exact hnd.1 hk2

theorem lookup_eq_some_of_mem {α β : Type} [BEq α] [LawfulBEq α]
    {l : List (α × β)} {k : α} {v : β}
    (hnd : (l.map Prod.fst).Nodup) (hm : (k, v) ∈ l) :
    l.lookup k = some v := by
  induction l with
  | nil => cases hm
  | cons x xs ih =>
    obtain ⟨k0, v0⟩ := x
    simp only [List.map_cons, List.nodup_cons] at hnd
    rcases List.mem_cons.mp hm with heq | htail
    · cases heq
      simp [List.lookup]
    · have hne : (k == k0) = false := by
        rw [beq_eq_false_iff_ne]
        intro heq
        subst heq
        exact hnd.1 (List.mem_map.mpr ⟨(k, v), htail, rfl⟩)
      simp only [List.lookup, hne]
      exact ih hnd.2 htail

theorem lookupAll_map {mainDict : List (Nat × V)} {f : Nat → V}
    (idx : List Nat) (h : ∀ i ∈ idx, mainDict.lookup i = some (f i)) :
    lookupAll mainDict idx = .ok (idx.map f) := by
  induction idx with
  | nil => rfl
  | cons i is ih =>
    simp only [lookupAll, h i (by simp), List.map_cons]
    rw [ih (fun j hj => h j (by simp [hj]))]

/-! ### Claim C2 -/

/-- C2: for every pooled dispatch of `n` sub-requests and every worker
completion order (any permutation of the tagged responses), `doProcess`
returns exactly `n` results with result `i` being the response `f i` to
sub-request `i`, and the event trace shows the wrapper's lock acquired
before the first enqueue and released only after the `n`-th dequeue
(the reorder loop runs after the release and emits no queue events). -/
theorem doProcessMulti_restores_order (n : Nat) (f : Nat → V)
    (responses : List (Nat × V))
    (hperm : responses.Perm ((List.range n).map (fun i => (i, f i)))) :
    (doProcessMulti n responses).1 = .ok ((List.range n).map f) ∧
    ((List.range n).map f).length = n ∧
    (doProcessMulti n responses).2 =
      DispatchEvent.acquire ::
        ((List.range n).map DispatchEvent.enqueue ++
         responses.map (fun p => DispatchEvent.dequeue p.1) ++
         [DispatchEvent.release]) ∧
    (responses.map (fun p => DispatchEvent.dequeue p.1)).length = n := by
  have hkeys : (responses.map Prod.fst).Perm (List.range n) := by
    have h2 := hperm.map Prod.fst
    rw [List.map_map,
      show (Prod.fst ∘ fun i : Nat => (i, f i)) = id from rfl,
      List.map_id] at h2
    exact h2
  have hnd : (responses.map Prod.fst).Nodup :=
    hkeys.nodup_iff.mpr (List.nodup_range n)
  have hfold : responses.foldl (fun d p => odSetItem d p.1 p.2) [] =
      responses := by
    have := foldl_odSetItem_eq_append responses [] hnd (by simp)
    simpa using this
  refine ⟨?_, by simp, ?_, ?_⟩
  · simp only [doProcessMulti, hfold]
    refine lookupAll_map (List.range n) (fun i hi => ?_)
    have hmem : (i, f i) ∈ responses := by
      rw [hperm.mem_iff]
      exact List.mem_map.mpr ⟨i, hi, rfl⟩
    exact lookup_eq_some_of_mem hnd hmem
  · rfl
  · have : responses.length = n := by
      have := hperm.length_eq
      simpa using this
    simp [this]

/-- Witness for `doProcessMulti_restores_order` with three sub-requests
completing in the order 2, 0, 1. -/
theorem doProcessMulti_restores_order_witness :
    (doProcessMulti 3 [(2, 102), (0, 100), (1, 101)]).1 =
      .ok ((List.range 3).map (fun i => 100 + i)) :=
  (doProcessMulti_restores_order 3 (fun i => 100 + i)
    [(2, 102), (0, 100), (1, 101)] (by decide)).1

/-! ### `bswrappers.py`: worker-pool initialization and rotation -/

/-- The loop of `initializeProcesses` (`bswrappers.py` lines 89-98), for
an abstract process-handle type `P`: each started process is appended to
the local list, then its initialization handshake message is read from
`tasksDone`; the first non-`"Success"` message raises (abandoning the
loop and discarding the local list).  `handshakes` pairs each process
with its handshake message, in start order. -/
def initializeProcessesLoop {P : Type} :
    List P → List (P × String) → Except String (List P)
  | processes, [] => .ok processes
  | processes, (p, msg) :: rest =>
      let processes2 := processes ++ [p]
      if msg ≠ "Success" then .error msg
      else initializeProcessesLoop processes2 rest

/-- `BioSimNormalsAndWeatherGeneratorWrapper.initializeProcesses`. -/
def initializeProcesses {P : Type} (handshakes : List (P × String)) :
    Except String (List P) :=
  initializeProcessesLoop [] handshakes

/-- The wrapper fields rotated by `respawn`: `self.processes`,
`self.tasksToDo`, `self.tasksDone`. -/
structure WrapperState (P Q : Type) where
  processes : List P
  tasksToDo : Q
  tasksDone : Q
  deriving Repr, DecidableEq

/-- Events of the multi-process branch of `respawn` (`bswrappers.py`
lines 103-121), in program order: the wrapper's lock (the same
`self.lock` taken by `doProcess`) is acquired, the three fields are
swapped, the lock is released, and the former pool's workers are
terminated. -/
inductive RespawnEvent (P : Type)
  | acquire
  | swap
  | release
  | terminated (formerProcesses : List P)
  deriving Repr, DecidableEq

/-- The multi-process branch of `respawn`: fresh queues and a full
replacement pool are created first; `initializeProcesses` runs *before*
the lock is taken and before any field is written, so if any worker's
handshake is not `"Success"` the exception propagates with the wrapper
state untouched and no lock/swap/terminate event.  On success the three
fields are swapped under the lock and only afterwards are the old pool's
workers terminated. -/
def respawn {P Q : Type} (s : WrapperState P Q)
    (handshakes : List (P × String)) (newTasksToDo newTasksDone : Q) :
    WrapperState P Q × Option String × List (RespawnEvent P) :=
  match initializeProcesses handshakes with
  | .error msg => (s, some msg, [])
  | .ok processes =>
      let formerProcesses := s.processes
      (⟨processes, newTasksToDo, newTasksDone⟩, none,
       [RespawnEvent.acquire, RespawnEvent.swap, RespawnEvent.release,
        RespawnEvent.terminated formerProcesses])

theorem initializeProcessesLoop_ok {P : Type} :
    ∀ (hs : List (P × String)) (acc : List P),
    (∀ pm ∈ hs, pm.2 = "Success") →
    initializeProcessesLoop acc hs = .ok (acc ++ hs.map Prod.fst) := by
  intro hs
  induction hs with
  | nil => intro acc _; simp [initializeProcessesLoop]
  | cons x xs ih =>
    intro acc hall
    obtain ⟨p, msg⟩ := x
    have hmsg : msg = "Success" := hall (p, msg) (by simp)
    simp only [initializeProcessesLoop, hmsg]
    rw [if_neg (by simp)]
    rw [ih (acc ++ [p]) (fun pm hpm => hall pm (by simp [hpm]))]
    simp

theorem initializeProcessesLoop_error {P : Type} :
    ∀ (good : List (P × String)) (acc : List P) (p : P) (m : String)
      (rest : List (P × String)),
    (∀ pm ∈ good, pm.2 = "Success") → m ≠ "Success" →
    initializeProcessesLoop acc (good ++ (p, m) :: rest) = .error m := by
  intro good
  induction good with
  | nil =>
    intro acc p m rest _ hm
    simp only [List.nil_append, initializeProcessesLoop]
    rw [if_pos hm]
  | cons x xs ih =>
    intro acc p m rest hall hm
    obtain ⟨p0, m0⟩ := x
    have hmsg : m0 = "Success" := hall (p0, m0) (by simp)
    simp only [List.cons_append, initializeProcessesLoop, hmsg]
    rw [if_neg (by simp)]
    exact ih _ p m rest (fun pm hpm => hall pm (by simp [hpm])) hm

/-! ### Claim C8 -/

/-- C8: pool rotation is atomic with respect to failure.  If every
handshake of the replacement pool returns `"Success"`, the wrapper's
`processes`/`tasksToDo`/`tasksDone` fields are swapped to the new pool,
the swap happens between acquiring and releasing the wrapper's lock, and
the old pool's workers are terminated only after the release.  If any
handshake fails, the error propagates with the wrapper state unchanged
(the old pool remains authoritative) and no lock, swap or termination
event occurs. -/
theorem respawn_atomic {P Q : Type} :
    (∀ (s : WrapperState P Q) (handshakes : List (P × String))
        (q1 q2 : Q), (∀ pm ∈ handshakes, pm.2 = "Success") →
      respawn s handshakes q1 q2 =
        (⟨handshakes.map Prod.fst, q1, q2⟩, none,
         [RespawnEvent.acquire, RespawnEvent.swap, RespawnEvent.release,
          RespawnEvent.terminated s.processes])) ∧
    (∀ (s : WrapperState P Q) (good : List (P × String)) (p : P)
        (m : String) (rest : List (P × String)) (q1 q2 : Q),
      (∀ pm ∈ good, pm.2 = "Success") → m ≠ "Success" →
      respawn s (good ++ (p, m) :: rest) q1 q2 = (s, some m, [])) := by
  constructor
  · intro s handshakes q1 q2 hall
    have hinit : initializeProcesses handshakes =
        .ok (handshakes.map Prod.fst) := by
      have := initializeProcessesLoop_ok handshakes [] hall
      simpa [initializeProcesses] using this
    simp [respawn, hinit]
  · intro s good p m rest q1 q2 hgood hm
    have hinit : initializeProcesses (good ++ (p, m) :: rest) = .error m :=
      initializeProcessesLoop_error good [] p m rest hgood hm
    simp [respawn, hinit]

/-- Witness for `respawn_atomic`: a two-worker pool swaps cleanly on two
successful handshakes, and a failing second handshake leaves the state
untouched. -/
theorem respawn_atomic_witness :
    respawn (⟨[7, 8], 0, 1⟩ : WrapperState Nat Nat)
        [(20, "Success"), (21, "Success")] 2 3 =
      (⟨[20, 21], 2, 3⟩, none,
       [RespawnEvent.acquire, RespawnEvent.swap, RespawnEvent.release,
        RespawnEvent.terminated [7, 8]]) ∧
    respawn (⟨[7, 8], 0, 1⟩ : WrapperState Nat Nat)
        ([(20, "Success")] ++ (21, "init failed") :: []) 2 3 =
      (⟨[7, 8], 0, 1⟩, some "init failed", []) := by
  constructor
  · exact respawn_atomic.1 ⟨[7, 8], 0, 1⟩ [(20, "Success"), (21, "Success")]
      2 3 (by decide)
  · exact respawn_atomic.2 ⟨[7, 8], 0, 1⟩ [(20, "Success")] 21 "init failed"
      [] 2 3 (by decide) (by decide)

end BioSim
